import Mathlib

/-!
Shallow embedding of the `csv-transaction-processing` repository
(`src/accounts.rs`, `src/transactions.rs`, `src/services.rs`).

Modelling conventions:

* The Rust `HashMap<K, V>` stores are embedded as association lists
  (`List (Nat × V)`) with last-write-wins insertion (`ainsert`), matching
  `HashMap::insert` overwriting semantics.  Iteration order of rows in the
  report is unspecified by the spec, so the list order is an admissible
  iteration order.
* Monetary amounts are `f32` in the source.  Arithmetic is abstracted in a
  structure `Arith` with one field per operation the source performs
  (`+=`/`-=`).  Two instances are used: `f32Arith`, the arithmetic of the implementation (IEEE-754 binary32: the exact rational sum/difference rounded
  to the nearest representable binary32 value, ties to even; overflow to
  infinity and NaN are outside the range exercised by any theorem below
  and are not modelled), and `exactArith`, exact rational arithmetic.
  Comparisons (`<`) on finite floats agree with the rational order on the
  represented values, so they are embedded as rational comparisons.
* Rust panics (`Option::unwrap` on `None`) are embedded by making the
  transaction handlers return `Option` state: `none` is a panic, `some s`
  is normal completion in state `s`.
-/

/-- Lookup in an association list, embedding `HashMap::get` /
`HashMap::get_mut` / `contains_key`. -/
def alookup {α : Type} : List (Nat × α) → Nat → Option α
  | [], _ => none
  | (k', v) :: rest, k => if k = k' then some v else alookup rest k

/-- Insertion into an association list with overwrite, embedding
`HashMap::insert` (last write wins). -/
def ainsert {α : Type} : List (Nat × α) → Nat → α → List (Nat × α)
  | [], k, v => [(k, v)]
  | (k', v') :: rest, k, v =>
      if k = k' then (k, v) :: rest else (k', v') :: ainsert rest k v

theorem alookup_ainsert {α : Type} (l : List (Nat × α)) (k : Nat) (v : α) (c : Nat) :
    alookup (ainsert l k v) c = if c = k then some v else alookup l c := by
  induction l with
  | nil =>
      by_cases h : c = k <;> simp [ainsert, alookup, h]
  | cons p rest ih =>
      obtain ⟨k', v'⟩ := p
      by_cases hk : k = k'
      · subst hk
        by_cases hc : c = k <;> simp [ainsert, alookup, hc]
      · by_cases hc : c = k'
        · subst hc
          simp [ainsert, hk, alookup, Ne.symm hk]
        · simp [ainsert, hk, alookup, hc, ih]

/-! ### IEEE-754 binary32 arithmetic model -/

/-- Floor of the base-2 logarithm of a positive natural number
(fuel-based structural recursion so that it reduces in the kernel). -/
def natLog2Aux : Nat → Nat → Nat
  | 0, _ => 0
  | fuel + 1, n => if n ≤ 1 then 0 else natLog2Aux fuel (n / 2) + 1

def natLog2 (n : Nat) : Nat := natLog2Aux n n

/-- The value `2 ^ e` as a rational, for an integer exponent. -/
def zpow2 (e : Int) : ℚ :=
  if 0 ≤ e then ((2 ^ e.toNat : Nat) : ℚ) else ((2 ^ (-e).toNat : Nat) : ℚ)⁻¹

/-- Floor of the base-2 logarithm of a positive rational: the unique `E`
with `2 ^ E ≤ q < 2 ^ (E + 1)`.  The estimate from numerator/denominator
bit lengths is off by at most one, so two comparisons fix it up. -/
def qlog2floor (q : ℚ) : Int :=
  let a := q.num.toNat
  let b := q.den
  let e0 : Int := (natLog2 a : Int) - (natLog2 b : Int)
  if zpow2 (e0 + 1) ≤ q then e0 + 1
  else if zpow2 e0 ≤ q then e0
  else e0 - 1

/-- Round a rational to the nearest integer, ties to even. -/
def rhte (r : ℚ) : Int :=
  let n := Rat.floor r
  let frac := r - (n : ℚ)
  if frac < 1 / 2 then n
  else if (1 : ℚ) / 2 < frac then n + 1
  else if n % 2 = 0 then n else n + 1

/-- Round a rational to the nearest IEEE-754 binary32 value (round to
nearest, ties to even), for results within the finite range: normal
numbers keep a 24-bit significand (unit in the last place `2 ^ (E - 23)`
for magnitude in `[2 ^ E, 2 ^ (E + 1))`, `E ≥ -126`), subnormals are
multiples of `2 ^ (-149)`. -/
def roundF32 (q : ℚ) : ℚ :=
  if q = 0 then 0
  else
    let m := if q < 0 then -q else q
    let E := qlog2floor m
    let step := zpow2 (max (E - 23) (-149))
    let n := rhte (m / step)
    (if q < 0 then -1 else 1) * (n : ℚ) * step

/-- The arithmetic operations the source performs on amounts
(`+=` and `-=` on `f32`). -/
structure Arith where
  add : ℚ → ℚ → ℚ
  sub : ℚ → ℚ → ℚ

/-- The arithmetic of the implementation: `f32` addition and subtraction
(exact result rounded to binary32). -/
def f32Arith : Arith :=
  { add := fun x y => roundF32 (x + y)
    sub := fun x y => roundF32 (x - y) }

/-- Idealized exact rational arithmetic. -/
def exactArith : Arith :=
  { add := fun x y => x + y
    sub := fun x y => x - y }

/-! ### Data model (`transactions.rs`, `accounts.rs`) -/

/-- Embeds `enum TransactionType` from `transactions.rs`. -/
inductive TransactionType where
  | Deposit
  | Withdrawal
  | Dispute
  | Resolve
  | Chargeback
deriving DecidableEq

/-- Embeds `struct Transaction` from `transactions.rs`.  `amount` is an
`Option<f32>`; `disputed` is skipped by deserialization and starts
`false` for records decoded from input. -/
structure Transaction where
  transaction_type : TransactionType
  client_id : Nat
  tx_id : Nat
  amount : Option ℚ
  disputed : Bool
deriving DecidableEq

/-- Embeds `struct TransactionCache` from `transactions.rs`. -/
structure TransactionCache where
  store : List (Nat × Transaction)
deriving DecidableEq

def TransactionCache.new : TransactionCache := ⟨[]⟩

/-- Embeds `TransactionCache::insert`: only Withdrawal and Deposit records are
retained; the other kinds are not stored. -/
def TransactionCache.insert (c : TransactionCache) (tx : Transaction) : TransactionCache :=
  match tx.transaction_type with
  | .Withdrawal | .Deposit => ⟨ainsert c.store tx.tx_id tx⟩
  | _ => c

def TransactionCache.contains_key (c : TransactionCache) (tx_id : Nat) : Bool :=
  (alookup c.store tx_id).isSome

def TransactionCache.get_mut (c : TransactionCache) (tx_id : Nat) : Option Transaction :=
  alookup c.store tx_id

/-- Embeds `struct Account` from `accounts.rs`. -/
structure Account where
  client : Nat
  available : ℚ
  held : ℚ
  total : ℚ
  locked : Bool
deriving DecidableEq

/-- Embeds `Account::new`. -/
def Account.new (client_id : Nat) (initial_deposit : ℚ) : Account :=
  { client := client_id
    total := initial_deposit
    held := 0
    available := initial_deposit
    locked := false }

/-- Embeds `Account::apply_deposit`. -/
def Account.apply_deposit (a : Account) (A : Arith) (deposit_amt : ℚ) : Account :=
  { a with total := A.add a.total deposit_amt
           available := A.add a.available deposit_amt }

/-- Embeds `Account::apply_withdrawal`. -/
def Account.apply_withdrawal (a : Account) (A : Arith) (withdrawal_amt : ℚ) : Account :=
  if a.available < withdrawal_amt then a
  else
    { a with total := A.sub a.total withdrawal_amt
             available := A.sub a.available withdrawal_amt }

/-- Embeds `Account::apply_dispute`. -/
def Account.apply_dispute (a : Account) (A : Arith) (disputed_amt : ℚ) : Account :=
  { a with available := A.sub a.available disputed_amt
           held := A.add a.held disputed_amt }

/-- Embeds `Account::apply_resolve`. -/
def Account.apply_resolve (a : Account) (A : Arith) (resolve_amt : ℚ) : Account :=
  { a with held := A.sub a.held resolve_amt
           available := A.add a.available resolve_amt }

/-- Embeds `Account::apply_chargeback`. -/
def Account.apply_chargeback (a : Account) (A : Arith) (chargeback_amt : ℚ) : Account :=
  { a with locked := true
           held := A.sub a.held chargeback_amt
           total := A.sub a.total chargeback_amt }

/-- Embeds `struct AccountsCache` from `accounts.rs`. -/
structure AccountsCache where
  store : List (Nat × Account)
deriving DecidableEq

def AccountsCache.new : AccountsCache := ⟨[]⟩

def AccountsCache.contains_key (c : AccountsCache) (client_id : Nat) : Bool :=
  (alookup c.store client_id).isSome

def AccountsCache.get_mut (c : AccountsCache) (client_id : Nat) : Option Account :=
  alookup c.store client_id

/-- Embeds `AccountsCache::initialize_account`: a Deposit creates the account from
its amount (`tx.amount.unwrap()` — `none` is the panic); any other kind is
a no-op on the cache. -/
def AccountsCache.initialize_account (c : AccountsCache) (tx : Transaction) :
    Option AccountsCache :=
  match tx.transaction_type with
  | .Deposit =>
      match tx.amount with
      | some amt => some ⟨ainsert c.store tx.client_id (Account.new tx.client_id amt)⟩
      | none => none
  | _ => some c

/-! ### Report serialization (`impl Display for AccountsCache`) -/

/-- The four fractional digits of the four-decimal formatting: the decimal digits of
`m % 10000`, padded to width four. -/
def frac4digits (m : Nat) : String :=
  String.mk [Nat.digitChar (m / 1000 % 10), Nat.digitChar (m / 100 % 10),
             Nat.digitChar (m / 10 % 10), Nat.digitChar (m % 10)]

/-- The magnitude of `q` scaled by `10 ^ 4` and rounded to the nearest
integer: the digits the formatter prints.  (An exact tie at the fourth decimal
would require a factor of five in the denominator, which no binary32 value
has, so the tie-breaking choice is unobservable on `f32` inputs.) -/
def amt4 (q : ℚ) : Nat :=
  (rhte ((if q < 0 then -q else q) * 10000)).toNat

/-- The Rust four-decimal formatting of an `f32` value: optional sign, the integer
part in decimal, a point, and exactly four fractional digits. -/
def fmt4 (q : ℚ) : String :=
  (if q < 0 then "-" else "") ++ toString (amt4 q / 10000) ++ "." ++ frac4digits (amt4 q % 10000)

/-- Embeds the Display implementation for `AccountsCache` from `accounts.rs`: start from the
header row and push one formatted line per account. -/
def AccountsCache.display (c : AccountsCache) : String :=
  c.store.foldl
    (fun out p =>
      out ++ (toString p.1 ++ "," ++ fmt4 p.2.available ++ "," ++ fmt4 p.2.held ++ ","
        ++ fmt4 p.2.total ++ "," ++ (if p.2.locked then "true" else "false") ++ "\n"))
    "client,available,held,total,locked\n"

/-! ### Transaction engine (`services.rs`) -/

/-- Embeds `struct TransactionService`. -/
structure TransactionService where
  accounts : AccountsCache
  transactions : TransactionCache
deriving DecidableEq

def TransactionService.new : TransactionService :=
  { accounts := AccountsCache.new, transactions := TransactionCache.new }

/-- Embeds `TransactionService::handle_deposit`.  The two unwraps (on
`get_mut` and on `tx.amount`) are the `none` results. -/
def TransactionService.handle_deposit (s : TransactionService) (A : Arith)
    (tx : Transaction) : Option TransactionService :=
  match s.accounts.get_mut tx.client_id with
  | none => none
  | some account =>
      if account.locked then some s
      else
        match tx.amount with
        | none => none
        | some amt =>
            some { s with accounts := ⟨ainsert s.accounts.store tx.client_id
                                        (account.apply_deposit A amt)⟩ }

/-- Embeds `TransactionService::handle_withdrawal`. -/
def TransactionService.handle_withdrawal (s : TransactionService) (A : Arith)
    (tx : Transaction) : Option TransactionService :=
  match s.accounts.get_mut tx.client_id with
  | none => none
  | some account =>
      if account.locked then some s
      else
        match tx.amount with
        | none => none
        | some amt =>
            some { s with accounts := ⟨ainsert s.accounts.store tx.client_id
                                        (account.apply_withdrawal A amt)⟩ }

/-- Embeds `TransactionService::handle_dispute`: bail on a locked account, bail
when the referenced tx is absent, set the `disputed` flag of the retained record
flag, then move the retained amount (`disputed_tx.amount.unwrap()`) from
available to held on the account of the client named in the record. -/
def TransactionService.handle_dispute (s : TransactionService) (A : Arith)
    (tx : Transaction) : Option TransactionService :=
  match s.accounts.get_mut tx.client_id with
  | none => none
  | some account =>
      if account.locked then some s
      else if ! s.transactions.contains_key tx.tx_id then some s
      else
        match s.transactions.get_mut tx.tx_id with
        | none => none
        | some disputed_tx =>
            let s1 : TransactionService :=
              { s with transactions := ⟨ainsert s.transactions.store tx.tx_id
                                         { disputed_tx with disputed := true }⟩ }
            match disputed_tx.amount with
            | none => none
            | some amt =>
                some { s1 with accounts := ⟨ainsert s1.accounts.store tx.client_id
                                             (account.apply_dispute A amt)⟩ }

/-- Embeds `TransactionService::handle_resolve`: bail on a locked account, an
absent referenced tx, or an undisputed referenced tx; otherwise release
the retained amount and clear the `disputed` flag. -/
def TransactionService.handle_resolve (s : TransactionService) (A : Arith)
    (tx : Transaction) : Option TransactionService :=
  match s.accounts.get_mut tx.client_id with
  | none => none
  | some account =>
      if account.locked then some s
      else if ! s.transactions.contains_key tx.tx_id then some s
      else
        match s.transactions.get_mut tx.tx_id with
        | none => none
        | some resolved_tx =>
            if ! resolved_tx.disputed then some s
            else
              match resolved_tx.amount with
              | none => none
              | some amt =>
                  some { accounts := ⟨ainsert s.accounts.store tx.client_id
                                       (account.apply_resolve A amt)⟩
                         transactions := ⟨ainsert s.transactions.store tx.tx_id
                                           { resolved_tx with disputed := false }⟩ }

/-- Embeds `TransactionService::handle_chargeback`: the same guards as resolve;
otherwise subtract the retained amount from held and total, lock the
account, and clear the `disputed` flag. -/
def TransactionService.handle_chargeback (s : TransactionService) (A : Arith)
    (tx : Transaction) : Option TransactionService :=
  match s.accounts.get_mut tx.client_id with
  | none => none
  | some account =>
      if account.locked then some s
      else if ! s.transactions.contains_key tx.tx_id then some s
      else
        match s.transactions.get_mut tx.tx_id with
        | none => none
        | some chargeback_tx =>
            if ! chargeback_tx.disputed then some s
            else
              match chargeback_tx.amount with
              | none => none
              | some amt =>
                  some { accounts := ⟨ainsert s.accounts.store tx.client_id
                                       (account.apply_chargeback A amt)⟩
                         transactions := ⟨ainsert s.transactions.store tx.tx_id
                                           { chargeback_tx with disputed := false }⟩ }

/-- Embeds `TransactionService::apply_transaction`: retain the record first, then
either bootstrap a missing account (Deposit only) or dispatch on kind. -/
def TransactionService.apply_transaction (s : TransactionService) (A : Arith)
    (tx : Transaction) : Option TransactionService :=
  let s1 : TransactionService := { s with transactions := s.transactions.insert tx }
  if ! s1.accounts.contains_key tx.client_id then
    (s1.accounts.initialize_account tx).map fun accounts => { s1 with accounts := accounts }
  else
    match tx.transaction_type with
    | .Deposit => s1.handle_deposit A tx
    | .Withdrawal => s1.handle_withdrawal A tx
    | .Dispute => s1.handle_dispute A tx
    | .Resolve => s1.handle_resolve A tx
    | .Chargeback => s1.handle_chargeback A tx

/-- Processing a record sequence in arrival order, as the deserialize-and-apply loop of the driver does; a panic anywhere aborts the run. -/
def TransactionService.runTxs (A : Arith) (txs : List Transaction)
    (s : TransactionService) : Option TransactionService :=
  match txs with
  | [] => some s
  | tx :: rest =>
      match s.apply_transaction A tx with
      | none => none
      | some s' => TransactionService.runTxs A rest s'

/-! ### Conservation invariant (exact arithmetic) -/

/-- The at-rest account invariant `total == available + held`. -/
def AccountOk (a : Account) : Prop := a.total = a.available + a.held

/-- Every account in a ledger store satisfies the invariant. -/
def AOk (l : List (Nat × Account)) : Prop :=
  ∀ c a, alookup l c = some a → AccountOk a

theorem AOk_nil : AOk [] := by
  intro c a h
  simp [alookup] at h

theorem AOk_ainsert {l : List (Nat × Account)} {k : Nat} {b : Account}
    (h : AOk l) (hb : AccountOk b) : AOk (ainsert l k b) := by
  intro c a hl
  rw [alookup_ainsert] at hl
  split at hl
  · cases hl
    exact hb
  · exact h _ _ hl

theorem AccountOk_new (cid : Nat) (x : ℚ) : AccountOk (Account.new cid x) := by
  simp [AccountOk, Account.new]

theorem AccountOk_apply_deposit {a : Account} (h : AccountOk a) (x : ℚ) :
    AccountOk (a.apply_deposit exactArith x) := by
  simp only [AccountOk, Account.apply_deposit, exactArith] at *
  rw [h]
  ring

theorem AccountOk_apply_withdrawal {a : Account} (h : AccountOk a) (x : ℚ) :
    AccountOk (a.apply_withdrawal exactArith x) := by
  simp only [AccountOk, Account.apply_withdrawal, exactArith] at *
  split
  · exact h
  · simp only
    rw [h]
    ring

theorem AccountOk_apply_dispute {a : Account} (h : AccountOk a) (x : ℚ) :
    AccountOk (a.apply_dispute exactArith x) := by
  simp only [AccountOk, Account.apply_dispute, exactArith] at *
  rw [h]
  ring

theorem AccountOk_apply_resolve {a : Account} (h : AccountOk a) (x : ℚ) :
    AccountOk (a.apply_resolve exactArith x) := by
  simp only [AccountOk, Account.apply_resolve, exactArith] at *
  rw [h]
  ring

theorem AccountOk_apply_chargeback {a : Account} (h : AccountOk a) (x : ℚ) :
    AccountOk (a.apply_chargeback exactArith x) := by
  simp only [AccountOk, Account.apply_chargeback, exactArith] at *
  rw [h]
  ring

/-- One of the five balance mutators applied with some amount. -/
def IsBalanceOp (A : Arith) (a b : Account) : Prop :=
  ∃ x, b = a.apply_deposit A x ∨ b = a.apply_withdrawal A x ∨ b = a.apply_dispute A x ∨
    b = a.apply_resolve A x ∨ b = a.apply_chargeback A x

/-- Structure of one engine step on the ledger: either the ledger is
untouched, or a fresh account is created by a Deposit bootstrapping an
absent client, or the existing unlocked account of the client named in the record is
replaced by the result of one balance mutator. -/
theorem apply_transaction_shape (A : Arith) (s s' : TransactionService) (tx : Transaction)
    (happ : s.apply_transaction A tx = some s') :
    s'.accounts = s.accounts ∨
    (alookup s.accounts.store tx.client_id = none ∧ ∃ x, tx.amount = some x ∧
      tx.transaction_type = .Deposit ∧
      s'.accounts.store = ainsert s.accounts.store tx.client_id (Account.new tx.client_id x)) ∨
    (∃ a b, alookup s.accounts.store tx.client_id = some a ∧ a.locked = false ∧
      IsBalanceOp A a b ∧ s'.accounts.store = ainsert s.accounts.store tx.client_id b) := by
  simp only [TransactionService.apply_transaction] at happ
  split at happ
  case isTrue habs =>
    rw [Bool.not_eq_true', AccountsCache.contains_key] at habs
    have habs' : alookup s.accounts.store tx.client_id = none := by
      cases h : alookup s.accounts.store tx.client_id
      · rfl
      · rw [h] at habs
        simp at habs
    simp only [AccountsCache.initialize_account] at happ
    split at happ
    · split at happ
      · simp only [Option.map_some'] at happ
        rename_i xT hdep xO amt hamt
        cases happ
        exact Or.inr (Or.inl ⟨habs', amt, hamt, hdep, rfl⟩)
      · simp only [Option.map_none'] at happ
        exact absurd happ (by simp)
    · simp only [Option.map_some'] at happ
      cases happ
      exact Or.inl rfl
  rename_i hpres
  split at happ
  case' h_1 => simp only [TransactionService.handle_deposit, AccountsCache.get_mut] at happ
  case' h_2 => simp only [TransactionService.handle_withdrawal, AccountsCache.get_mut] at happ
  case' h_3 => simp only [TransactionService.handle_dispute, AccountsCache.get_mut] at happ
  case' h_4 => simp only [TransactionService.handle_resolve, AccountsCache.get_mut] at happ
  case' h_5 => simp only [TransactionService.handle_chargeback, AccountsCache.get_mut] at happ
  case h_1 =>
    split at happ
    · exact absurd happ (by simp)
    · rename_i account hacct
      split at happ
      case isTrue hlock =>
        cases happ
        exact Or.inl rfl
      case isFalse hlock =>
        split at happ
        · exact absurd happ (by simp)
        · rename_i amt hamt
          cases happ
          exact Or.inr (Or.inr ⟨account, _, hacct, Bool.eq_false_iff.mpr hlock,
            ⟨amt, Or.inl rfl⟩, rfl⟩)
  case h_2 =>
    split at happ
    · exact absurd happ (by simp)
    · rename_i account hacct
      split at happ
      case isTrue hlock =>
        cases happ
        exact Or.inl rfl
      case isFalse hlock =>
        split at happ
        · exact absurd happ (by simp)
        · rename_i amt hamt
          cases happ
          exact Or.inr (Or.inr ⟨account, _, hacct, Bool.eq_false_iff.mpr hlock,
            ⟨amt, Or.inr (Or.inl rfl)⟩, rfl⟩)
  case h_3 =>
    split at happ
    · exact absurd happ (by simp)
    · rename_i account hacct
      split at happ
      case isTrue hlock =>
        cases happ
        exact Or.inl rfl
      case isFalse hlock =>
        split at happ
        case isTrue habsent =>
          cases happ
          exact Or.inl rfl
        case isFalse hfound =>
          split at happ
          · exact absurd happ (by simp)
          · rename_i disputed_tx htx
            split at happ
            · exact absurd happ (by simp)
            · rename_i amt hamt
              cases happ
              exact Or.inr (Or.inr ⟨account, _, hacct, Bool.eq_false_iff.mpr hlock,
                ⟨amt, Or.inr (Or.inr (Or.inl rfl))⟩, rfl⟩)
  case h_4 =>
    split at happ
    · exact absurd happ (by simp)
    · rename_i account hacct
      split at happ
      case isTrue hlock =>
        cases happ
        exact Or.inl rfl
      case isFalse hlock =>
        split at happ
        case isTrue habsent =>
          cases happ
          exact Or.inl rfl
        case isFalse hfound =>
          split at happ
          · exact absurd happ (by simp)
          · rename_i resolved_tx htx
            split at happ
            case isTrue hundisp =>
              cases happ
              exact Or.inl rfl
            case isFalse hdisp =>
              split at happ
              · exact absurd happ (by simp)
              · rename_i amt hamt
                cases happ
                exact Or.inr (Or.inr ⟨account, _, hacct, Bool.eq_false_iff.mpr hlock,
                  ⟨amt, Or.inr (Or.inr (Or.inr (Or.inl rfl)))⟩, rfl⟩)
  case h_5 =>
    split at happ
    · exact absurd happ (by simp)
    · rename_i account hacct
      split at happ
      case isTrue hlock =>
        cases happ
        exact Or.inl rfl
      case isFalse hlock =>
        split at happ
        case isTrue habsent =>
          cases happ
          exact Or.inl rfl
        case isFalse hfound =>
          split at happ
          · exact absurd happ (by simp)
          · rename_i chargeback_tx htx
            split at happ
            case isTrue hundisp =>
              cases happ
              exact Or.inl rfl
            case isFalse hdisp =>
              split at happ
              · exact absurd happ (by simp)
              · rename_i amt hamt
                cases happ
                exact Or.inr (Or.inr ⟨account, _, hacct, Bool.eq_false_iff.mpr hlock,
                  ⟨amt, Or.inr (Or.inr (Or.inr (Or.inr rfl)))⟩, rfl⟩)

theorem AOk_step {s s' : TransactionService} {tx : Transaction}
    (h : AOk s.accounts.store) (happ : s.apply_transaction exactArith tx = some s') :
    AOk s'.accounts.store := by
  rcases apply_transaction_shape exactArith s s' tx happ with
    heq | ⟨habs, x, hx, hdep, hstore⟩ | ⟨a, b, ha, hlock, ⟨x, hop⟩, hstore⟩
  · rw [heq]
    exact h
  · rw [hstore]
    exact AOk_ainsert h (AccountOk_new _ _)
  · rw [hstore]
    apply AOk_ainsert h
    have hA := h _ _ ha
    rcases hop with rfl | rfl | rfl | rfl | rfl
    · exact AccountOk_apply_deposit hA x
    · exact AccountOk_apply_withdrawal hA x
    · exact AccountOk_apply_dispute hA x
    · exact AccountOk_apply_resolve hA x
    · exact AccountOk_apply_chargeback hA x

theorem AOk_runTxs {txs : List Transaction} {s s' : TransactionService}
    (h : AOk s.accounts.store)
    (hrun : TransactionService.runTxs exactArith txs s = some s') :
    AOk s'.accounts.store := by
  induction txs generalizing s with
  | nil =>
      simp only [TransactionService.runTxs] at hrun
      cases hrun
      exact h
  | cons tx rest ih =>
      simp only [TransactionService.runTxs] at hrun
      split at hrun
      · exact absurd hrun (by simp)
      · rename_i s1 happ
        exact ih (AOk_step h happ) hrun

theorem locked_frozen_step (A : Arith) {s s' : TransactionService} {tx : Transaction}
    {c : Nat} {a : Account} (ha : alookup s.accounts.store c = some a)
    (hl : a.locked = true) (happ : s.apply_transaction A tx = some s') :
    alookup s'.accounts.store c = some a := by
  rcases apply_transaction_shape A s s' tx happ with
    heq | ⟨habs, x, hx, hdep, hstore⟩ | ⟨a0, b, ha0, hlock, hop, hstore⟩
  · rw [heq]
    exact ha
  · rw [hstore, alookup_ainsert]
    split
    · rename_i hc
      rw [hc] at ha
      rw [habs] at ha
      cases ha
    · exact ha
  · rw [hstore, alookup_ainsert]
    split
    · rename_i hc
      rw [hc, ha0] at ha
      cases ha
      rw [hlock] at hl
      cases hl
    · exact ha

/-! ### Claim C1 -/

unseal Rat.add Rat.sub Rat.mul Rat.inv in
/-- Claim C1, counterexample: after the four records deposit 2, deposit 1,
dispute of tx 1, deposit 2^25 (all client 1), the account holds
available 2^25, held 2, total 2^25 + 4, and in f32 arithmetic
available + held ≠ total — the conservation identity fails under the
arithmetic of the implementation. -/
theorem conservation_f32_counterexample :
    ((TransactionService.runTxs f32Arith
        [⟨.Deposit, 1, 1, some 2, false⟩, ⟨.Deposit, 1, 2, some 1, false⟩,
         ⟨.Dispute, 1, 1, none, false⟩, ⟨.Deposit, 1, 3, some 33554432, false⟩]
        TransactionService.new).bind fun s => alookup s.accounts.store 1) =
      some ⟨1, 33554432, 2, 33554436, false⟩ ∧
    f32Arith.add 33554432 2 ≠ (33554436 : ℚ) := by
  constructor
  · decide
  · decide

/-- Claim C1, amended: with the balance mutations computed in exact
rational arithmetic, after processing any record sequence every account in
the ledger satisfies `total = available + held`.  (Every prefix of an
input is itself a record sequence, so this covers the state after each
applied record.) -/
theorem conservation_exact_after_each_record (txs : List Transaction) (c : Nat) (a : Account)
    (h : ((TransactionService.runTxs exactArith txs TransactionService.new).bind
        fun s => alookup s.accounts.store c) = some a) :
    a.total = a.available + a.held := by
  cases hrun : TransactionService.runTxs exactArith txs TransactionService.new with
  | none =>
      rw [hrun] at h
      cases h
  | some s =>
      rw [hrun] at h
      simp only [Option.some_bind] at h
      exact AOk_runTxs AOk_nil hrun c a h

unseal Rat.add Rat.sub Rat.mul Rat.inv in
/-- Witness for the amended C1 theorem at the same input run processed
under exact arithmetic. -/
theorem conservation_exact_witness :
    (⟨1, 33554433, 2, 33554435, false⟩ : Account).total =
      (⟨1, 33554433, 2, 33554435, false⟩ : Account).available +
        (⟨1, 33554433, 2, 33554435, false⟩ : Account).held :=
  conservation_exact_after_each_record
    [⟨.Deposit, 1, 1, some 2, false⟩, ⟨.Deposit, 1, 2, some 1, false⟩,
     ⟨.Dispute, 1, 1, none, false⟩, ⟨.Deposit, 1, 3, some 33554432, false⟩]
    1 ⟨1, 33554433, 2, 33554435, false⟩ (by decide)

/-! ### Claim C4 -/

unseal Rat.add Rat.sub Rat.mul Rat.inv in
/-- Claim C4, counterexample: in the f32 arithmetic of the implementation, a
Dispute of 2^25 followed by a Resolve of 2^25 on an account with
available 1 does not restore available (catastrophic cancellation leaves
0 instead of 1). -/
theorem dispute_resolve_f32_counterexample :
    (((⟨1, 1, 0, 1, false⟩ : Account).apply_dispute f32Arith 33554432).apply_resolve
        f32Arith 33554432).available ≠ (⟨1, 1, 0, 1, false⟩ : Account).available := by
  decide

/-- Claim C4, amended: with the mutations computed in exact rational
arithmetic, a Resolve for `x` immediately after a Dispute for the same `x`
restores the whole pre-Dispute account (in particular its available and
held), and the Dispute step leaves total unchanged (hence so does the
round trip). -/
theorem dispute_resolve_roundtrip_exact (a : Account) (x : ℚ) :
    (a.apply_dispute exactArith x).apply_resolve exactArith x = a ∧
    (a.apply_dispute exactArith x).total = a.total := by
  obtain ⟨cl, av, he, tot, lo⟩ := a
  refine ⟨?_, rfl⟩
  have h1 : av - x + x = av := by ring
  have h2 : he + x - x = he := by ring
  simp [Account.apply_dispute, Account.apply_resolve, exactArith, h1, h2]

/-! ### Claim C5 -/

/-- Claim C5: a Withdrawal is a silent no-op when `available < amount` at
the instant of application, and otherwise subtracts the amount from both
available and total (in the arithmetic the engine uses). -/
theorem withdrawal_guard (A : Arith) (a : Account) (x : ℚ) :
    (a.available < x → a.apply_withdrawal A x = a) ∧
    (¬a.available < x →
      a.apply_withdrawal A x =
        { a with total := A.sub a.total x, available := A.sub a.available x }) := by
  constructor <;> intro h <;> simp [Account.apply_withdrawal, h]

unseal Rat.add Rat.sub Rat.mul Rat.inv in
/-- Witness for C5: with available 3, an f32 withdrawal of 5 is dropped
and a withdrawal of 2 leaves available 1 and total 1. -/
theorem withdrawal_guard_witness :
    (⟨1, 3, 0, 3, false⟩ : Account).apply_withdrawal f32Arith 5 = ⟨1, 3, 0, 3, false⟩ ∧
    (⟨1, 3, 0, 3, false⟩ : Account).apply_withdrawal f32Arith 2 = ⟨1, 1, 0, 1, false⟩ :=
  ⟨(withdrawal_guard f32Arith ⟨1, 3, 0, 3, false⟩ 5).1 (by decide),
   ((withdrawal_guard f32Arith ⟨1, 3, 0, 3, false⟩ 2).2 (by decide)).trans (by decide)⟩

/-! ### Claim C8 -/

unseal Rat.add Rat.sub Rat.mul Rat.inv in
/-- Claim C8: a Chargeback that passes its guards applies exactly
`held -= amount`, `total -= amount`, `locked = true`, leaving available
unchanged; and on deposit 5.0 / dispute / chargeback of the same tx the
final account is available 0, held 0, total 0, locked true. -/
theorem chargeback_effect :
    (∀ (A : Arith) (a : Account) (x : ℚ),
        a.apply_chargeback A x =
          { a with locked := true, held := A.sub a.held x, total := A.sub a.total x } ∧
        (a.apply_chargeback A x).available = a.available) ∧
    ((TransactionService.runTxs f32Arith
        [⟨.Deposit, 1, 1, some 5, false⟩, ⟨.Dispute, 1, 1, none, false⟩,
         ⟨.Chargeback, 1, 1, none, false⟩] TransactionService.new).bind
      fun s => alookup s.accounts.store 1) = some ⟨1, 0, 0, 0, true⟩ :=
  ⟨fun _ _ _ => ⟨rfl, rfl⟩, by decide⟩

/-! ### Claim C10 -/

unseal Rat.add Rat.sub Rat.mul Rat.inv in
/-- Claim C10: a Deposit or Withdrawal record with an absent amount makes
`apply_transaction` panic (`unwrap` of `None`, modelled as `none`) instead
of dropping the record: for the first deposit of a new client the unwrap is in
account initialization, and for an existing client it is in the deposit
and withdrawal handlers. -/
theorem missing_amount_panics :
    TransactionService.new.apply_transaction f32Arith ⟨.Deposit, 1, 1, none, false⟩ = none ∧
    TransactionService.runTxs f32Arith
      [⟨.Deposit, 1, 1, some 5, false⟩, ⟨.Deposit, 1, 2, none, false⟩]
      TransactionService.new = none ∧
    TransactionService.runTxs f32Arith
      [⟨.Deposit, 1, 1, some 5, false⟩, ⟨.Withdrawal, 1, 2, none, false⟩]
      TransactionService.new = none := by
  refine ⟨by decide, by decide, by decide⟩

/-! ### Claim C2 -/

unseal Rat.add Rat.sub Rat.mul Rat.inv in
/-- Claim C2, counterexample: a Withdrawal as the first-ever record for
client 7 leaves the ledger untouched and creates no account, but the
record IS retained in the transaction store (`apply_transaction` inserts
Deposit/Withdrawal records before the bootstrap check). -/
theorem first_withdrawal_retained_counterexample :
    ((TransactionService.new.apply_transaction f32Arith
        ⟨.Withdrawal, 7, 1, some 1, false⟩).bind fun s => s.transactions.get_mut 1) =
      some ⟨.Withdrawal, 7, 1, some 1, false⟩ ∧
    ((TransactionService.new.apply_transaction f32Arith
        ⟨.Withdrawal, 7, 1, some 1, false⟩).map fun s => s.accounts) =
      some AccountsCache.new := by
  refine ⟨by decide, by decide⟩

/-- Claim C2, amended: when the first record naming a client (one whose
client id is absent from the ledger) is not a Deposit, the ledger is
unchanged and no account is created; the record is retained in the
transaction store exactly when it is a Withdrawal, while a Dispute,
Resolve or Chargeback first record is not retained. -/
theorem first_non_deposit_drop (A : Arith) (s s' : TransactionService) (tx : Transaction)
    (habs : alookup s.accounts.store tx.client_id = none)
    (hnd : tx.transaction_type ≠ .Deposit)
    (happ : s.apply_transaction A tx = some s') :
    s'.accounts = s.accounts ∧
    ((tx.transaction_type = .Withdrawal ∧
        s'.transactions.store = ainsert s.transactions.store tx.tx_id tx) ∨
      (tx.transaction_type ≠ .Withdrawal ∧ s'.transactions = s.transactions)) := by
  simp only [TransactionService.apply_transaction] at happ
  split at happ
  · simp only [AccountsCache.initialize_account] at happ
    simp only [Option.map_some'] at happ
    cases happ
    · refine ⟨rfl, ?_⟩
      cases hty : tx.transaction_type
      case Deposit => exact absurd hty hnd
      case Withdrawal =>
        exact Or.inl ⟨rfl, by simp [TransactionCache.insert, hty]⟩
      case Dispute =>
        exact Or.inr ⟨by simp [hty], by simp [TransactionCache.insert, hty]⟩
      case Resolve =>
        exact Or.inr ⟨by simp [hty], by simp [TransactionCache.insert, hty]⟩
      case Chargeback =>
        exact Or.inr ⟨by simp [hty], by simp [TransactionCache.insert, hty]⟩
  · rename_i hcon
    rw [AccountsCache.contains_key] at hcon
    rw [habs] at hcon
    simp at hcon

unseal Rat.add Rat.sub Rat.mul Rat.inv in
/-- Witness for the amended C2 theorem at the first-record Withdrawal. -/
theorem first_non_deposit_drop_witness :
    (⟨⟨[]⟩, ⟨[(1, ⟨.Withdrawal, 7, 1, some 1, false⟩)]⟩⟩ : TransactionService).accounts =
      TransactionService.new.accounts ∧
    (((⟨.Withdrawal, 7, 1, some 1, false⟩ : Transaction).transaction_type = .Withdrawal ∧
        (⟨⟨[]⟩, ⟨[(1, ⟨.Withdrawal, 7, 1, some 1, false⟩)]⟩⟩ :
            TransactionService).transactions.store =
          ainsert TransactionService.new.transactions.store 1
            ⟨.Withdrawal, 7, 1, some 1, false⟩) ∨
      ((⟨.Withdrawal, 7, 1, some 1, false⟩ : Transaction).transaction_type ≠ .Withdrawal ∧
        (⟨⟨[]⟩, ⟨[(1, ⟨.Withdrawal, 7, 1, some 1, false⟩)]⟩⟩ :
            TransactionService).transactions = TransactionService.new.transactions)) :=
  first_non_deposit_drop f32Arith TransactionService.new
    ⟨⟨[]⟩, ⟨[(1, ⟨.Withdrawal, 7, 1, some 1, false⟩)]⟩⟩
    ⟨.Withdrawal, 7, 1, some 1, false⟩ (by decide) (by decide) (by decide)

/-! ### Claim C3 -/

/-- Claim C3: once an account is locked, no subsequent record of any kind
changes any of its fields — processing any further record sequence leaves
the locked account exactly as it was. -/
theorem locked_account_frozen (A : Arith) (txs : List Transaction)
    (s s' : TransactionService) (c : Nat) (a : Account)
    (ha : alookup s.accounts.store c = some a) (hl : a.locked = true)
    (hrun : TransactionService.runTxs A txs s = some s') :
    alookup s'.accounts.store c = some a := by
  induction txs generalizing s with
  | nil =>
      simp only [TransactionService.runTxs] at hrun
      cases hrun
      exact ha
  | cons tx rest ih =>
      simp only [TransactionService.runTxs] at hrun
      split at hrun
      · exact absurd hrun (by simp)
      · rename_i s1 happ
        exact ih s1 (locked_frozen_step A ha hl happ) hrun

unseal Rat.add Rat.sub Rat.mul Rat.inv in
/-- Witness for C3: a locked account survives a deposit, a withdrawal and
a dispute attempt unchanged. -/
theorem locked_account_frozen_witness :
    alookup (⟨⟨[(1, ⟨1, 0, 0, 0, true⟩)]⟩,
        ⟨[(9, ⟨.Deposit, 1, 9, some 100, false⟩)]⟩⟩ :
      TransactionService).accounts.store 1 = some ⟨1, 0, 0, 0, true⟩ :=
  locked_account_frozen f32Arith
    [⟨.Deposit, 1, 9, some 100, false⟩, ⟨.Dispute, 1, 9, none, false⟩]
    ⟨⟨[(1, ⟨1, 0, 0, 0, true⟩)]⟩, ⟨[]⟩⟩
    ⟨⟨[(1, ⟨1, 0, 0, 0, true⟩)]⟩, ⟨[(9, ⟨.Deposit, 1, 9, some 100, false⟩)]⟩⟩
    1 ⟨1, 0, 0, 0, true⟩ (by decide) (by decide) (by decide)

/-! ### Claim C6 -/

/-- Claim C6: a Resolve or Chargeback record changes the ledger only if
the referenced tx is retained in the transaction store with its disputed
flag true, and whenever the ledger changes the disputed flag of the retained record
flag is reset to false. -/
theorem resolve_chargeback_guard (A : Arith) (s s' : TransactionService) (tx : Transaction)
    (hk : tx.transaction_type = .Resolve ∨ tx.transaction_type = .Chargeback)
    (happ : s.apply_transaction A tx = some s')
    (hmut : s'.accounts ≠ s.accounts) :
    (s.transactions.get_mut tx.tx_id).map Transaction.disputed = some true ∧
    s'.transactions.get_mut tx.tx_id =
      (s.transactions.get_mut tx.tx_id).map fun r => { r with disputed := false } := by
  have hins : s.transactions.insert tx = s.transactions := by
    rcases hk with h | h <;> simp [TransactionCache.insert, h]
  simp only [TransactionService.apply_transaction, hins] at happ
  split at happ
  · rcases hk with h | h <;>
      simp only [AccountsCache.initialize_account, h, Option.map_some'] at happ <;>
      (cases happ; exact absurd rfl hmut)
  · split at happ
    case h_1 heq => rcases hk with h | h <;> rw [heq] at h <;> cases h
    case h_2 heq => rcases hk with h | h <;> rw [heq] at h <;> cases h
    case h_3 heq => rcases hk with h | h <;> rw [heq] at h <;> cases h
    case h_4 heq =>
      simp only [TransactionService.handle_resolve, AccountsCache.get_mut,
        TransactionCache.contains_key, TransactionCache.get_mut] at happ
      split at happ
      · exact absurd happ (by simp)
      · rename_i account hacct
        split at happ
        · cases happ
          exact absurd rfl hmut
        · split at happ
          · cases happ
            exact absurd rfl hmut
          · split at happ
            · exact absurd happ (by simp)
            · rename_i resolved_tx htx
              split at happ
              case isTrue hundisp =>
                cases happ
                exact absurd rfl hmut
              case isFalse hdisp =>
                split at happ
                · exact absurd happ (by simp)
                · rename_i amt hamt
                  cases happ
                  simp at hdisp
                  refine ⟨?_, ?_⟩
                  · rw [TransactionCache.get_mut, htx]
                    simp [hdisp]
                  · rw [TransactionCache.get_mut, TransactionCache.get_mut, htx]
                    simp [alookup_ainsert]
    case h_5 heq =>
      simp only [TransactionService.handle_chargeback, AccountsCache.get_mut,
        TransactionCache.contains_key, TransactionCache.get_mut] at happ
      split at happ
      · exact absurd happ (by simp)
      · rename_i account hacct
        split at happ
        · cases happ
          exact absurd rfl hmut
        · split at happ
          · cases happ
            exact absurd rfl hmut
          · split at happ
            · exact absurd happ (by simp)
            · rename_i chargeback_tx htx
              split at happ
              case isTrue hundisp =>
                cases happ
                exact absurd rfl hmut
              case isFalse hdisp =>
                split at happ
                · exact absurd happ (by simp)
                · rename_i amt hamt
                  cases happ
                  simp at hdisp
                  refine ⟨?_, ?_⟩
                  · rw [TransactionCache.get_mut, htx]
                    simp [hdisp]
                  · rw [TransactionCache.get_mut, TransactionCache.get_mut, htx]
                    simp [alookup_ainsert]

unseal Rat.add Rat.sub Rat.mul Rat.inv in
/-- Witness for C6: resolving a disputed retained deposit of 5 releases
the held funds and clears the disputed flag. -/
theorem resolve_chargeback_guard_witness :
    ((⟨[(1, ⟨.Deposit, 1, 1, some 5, true⟩)]⟩ : TransactionCache).get_mut 1).map
        Transaction.disputed = some true ∧
    (⟨[(1, ⟨.Deposit, 1, 1, some 5, false⟩)]⟩ : TransactionCache).get_mut 1 =
      ((⟨[(1, ⟨.Deposit, 1, 1, some 5, true⟩)]⟩ : TransactionCache).get_mut 1).map
        fun r => { r with disputed := false } :=
  resolve_chargeback_guard f32Arith
    ⟨⟨[(1, ⟨1, 0, 5, 5, false⟩)]⟩, ⟨[(1, ⟨.Deposit, 1, 1, some 5, true⟩)]⟩⟩
    ⟨⟨[(1, ⟨1, 5, 0, 5, false⟩)]⟩, ⟨[(1, ⟨.Deposit, 1, 1, some 5, false⟩)]⟩⟩
    ⟨.Resolve, 1, 1, none, false⟩ (Or.inl rfl) (by decide) (by decide)

/-! ### Claim C7 -/

/-- Claim C7: a Dispute whose referenced tx is retained moves the retained
amount of the retained record from available to held on the account of the
client named in the DISPUTE record, with no check that the client of the
retained record matches
(the hypothesis `r.client_id ≠ tx.client_id` is permitted, not rejected). -/
theorem dispute_no_client_check (A : Arith) (s : TransactionService) (tx r : Transaction)
    (a : Account) (x : ℚ)
    (hk : tx.transaction_type = .Dispute)
    (ha : alookup s.accounts.store tx.client_id = some a)
    (hlock : a.locked = false)
    (hr : alookup s.transactions.store tx.tx_id = some r)
    (hx : r.amount = some x)
    (hcl : r.client_id ≠ tx.client_id) :
    ((s.apply_transaction A tx).bind fun s' => alookup s'.accounts.store tx.client_id) =
      some { a with available := A.sub a.available x, held := A.add a.held x } := by
  have hins : s.transactions.insert tx = s.transactions := by
    simp [TransactionCache.insert, hk]
  simp [TransactionService.apply_transaction, TransactionService.handle_dispute,
    AccountsCache.contains_key, AccountsCache.get_mut, TransactionCache.contains_key,
    TransactionCache.get_mut, hins, hk, ha, hr, hx, hlock, alookup_ainsert,
    Account.apply_dispute]

unseal Rat.add Rat.sub Rat.mul Rat.inv in
/-- Witness for C7: client 1 disputes the deposit of 7 made by client 2;
the account of client 1 goes from available 5 to available -2 with held 7. -/
theorem dispute_no_client_check_witness :
    (((⟨⟨[(1, ⟨1, 5, 0, 5, false⟩), (2, ⟨2, 7, 0, 7, false⟩)]⟩,
        ⟨[(1, ⟨.Deposit, 1, 1, some 5, false⟩), (2, ⟨.Deposit, 2, 2, some 7, false⟩)]⟩⟩ :
          TransactionService).apply_transaction f32Arith
        ⟨.Dispute, 1, 2, none, false⟩).bind
      fun s' => alookup s'.accounts.store 1) = some ⟨1, -2, 7, 5, false⟩ :=
  (dispute_no_client_check f32Arith
    ⟨⟨[(1, ⟨1, 5, 0, 5, false⟩), (2, ⟨2, 7, 0, 7, false⟩)]⟩,
      ⟨[(1, ⟨.Deposit, 1, 1, some 5, false⟩), (2, ⟨.Deposit, 2, 2, some 7, false⟩)]⟩⟩
    ⟨.Dispute, 1, 2, none, false⟩ ⟨.Deposit, 2, 2, some 7, false⟩ ⟨1, 5, 0, 5, false⟩ 7
    rfl (by decide) rfl (by decide) rfl (by decide)).trans (by decide)

/-! ### Claim C9 -/

theorem string_foldl_acc (xs : List String) (acc : String) :
    xs.foldl (fun r s => r ++ s) acc = acc ++ xs.foldl (fun r s => r ++ s) "" := by
  induction xs generalizing acc with
  | nil => simp [String.append_empty]
  | cons x xs ih =>
      simp only [List.foldl_cons]
      rw [ih (acc ++ x), ih ("" ++ x), String.empty_append, String.append_assoc]

theorem string_join_cons (x : String) (xs : List String) :
    String.join (x :: xs) = x ++ String.join xs := by
  simp only [String.join, List.foldl_cons]
  rw [string_foldl_acc xs ("" ++ x), String.empty_append]

theorem display_foldl (row : Nat × Account → String) (l : List (Nat × Account)) (acc : String) :
    l.foldl (fun out p => out ++ row p) acc = acc ++ String.join (l.map row) := by
  induction l generalizing acc with
  | nil => simp [String.join, String.append_empty]
  | cons p rest ih =>
      simp only [List.foldl_cons, List.map_cons]
      rw [ih, string_join_cons, String.append_assoc]

/-- Claim C9: the serialized report is the header row followed by exactly
one row per account (in the iteration order of the store), each row rendering
available, held and total via the four-fractional-digit formatter, locked
as the lowercase word true or false, and terminated by a newline; and the
formatter always emits a point followed by exactly four digit characters. -/
theorem report_format :
    (∀ c : AccountsCache,
        c.display = "client,available,held,total,locked\n" ++
          String.join (c.store.map fun p =>
            toString p.1 ++ "," ++ fmt4 p.2.available ++ "," ++ fmt4 p.2.held ++ "," ++
              fmt4 p.2.total ++ "," ++ (if p.2.locked then "true" else "false") ++ "\n")) ∧
    (∀ q : ℚ, fmt4 q = (if q < 0 then "-" else "") ++ toString (amt4 q / 10000) ++ "." ++
        frac4digits (amt4 q % 10000)) ∧
    (∀ m : Nat, (frac4digits m).length = 4) := by
  refine ⟨fun c => ?_, fun q => rfl, fun m => rfl⟩
  exact display_foldl _ c.store _
